import Mathlib

/-!
Verification development for the bingo-shuffler repository.

The geometry module (src/utils/imageUtils.ts), the cell-mapping operations of
the application component (handleShuffle, handleSwap, initializeMapping), the
Cell Board drag-and-drop handlers (src/components/BingoBoard.tsx) and the
Grid-Region Editor gesture state machine (GridEditor component) are embedded
shallowly.  JavaScript floating point numbers are idealized as rationals where
only field arithmetic and comparisons occur, and as real numbers in the
Grid-Region Editor, whose pinch gesture computes a Euclidean distance via a
square root.
-/

/-- The Rect type of src/types.ts: x, y, width, height. -/
structure Rect (α : Type) where
  x : α
  y : α
  width : α
  height : α
deriving DecidableEq, Repr

/-- A pointer position, the {x, y} objects used by both components. -/
structure Pt (α : Type) where
  x : α
  y : α
deriving DecidableEq, Repr

/-- getCellRect of src/utils/imageUtils.ts: subdivides gridRect into a
size by size grid and returns the row-major cell rectangle for index. -/
def getCellRect (gridRect : Rect ℚ) (size : ℕ) (index : ℕ) : Rect ℚ :=
  let cellWidth := gridRect.width / size
  let cellHeight := gridRect.height / size
  let row := index / size
  let col := index % size
  { x := gridRect.x + col * cellWidth
    y := gridRect.y + row * cellHeight
    width := cellWidth
    height := cellHeight }

/-- isPointInRect of src/utils/imageUtils.ts: inclusive containment test. -/
def isPointInRect (px py : ℚ) (rect : Rect ℚ) : Bool :=
  decide (px ≥ rect.x) && decide (px ≤ rect.x + rect.width) &&
    decide (py ≥ rect.y) && decide (py ≤ rect.y + rect.height)

/-- The destructuring swap [arr[i], arr[j]] = [arr[j], arr[i]] inside
shuffleArray; out-of-range indices never occur there, the fallback branch
leaves the list unchanged. -/
def listSwap {α : Type} (l : List α) (i j : ℕ) : List α :=
  match l.get? i, l.get? j with
  | some a, some b => (l.set i b).set j a
  | _, _ => l

/-- The loop of shuffleArray: for i from newArr.length - 1 down to 1, swap
element i with element Math.floor(Math.random() * (i + 1)).  The successive
Math.random() draws are modelled by the function rand, indexed by the loop
counter; each draw lies in [0, 1). -/
def shuffleLoop {α : Type} (rand : ℕ → ℚ) : ℕ → List α → List α
  | 0, arr => arr
  | i + 1, arr =>
      shuffleLoop rand i (listSwap arr (i + 1) (⌊rand (i + 1) * ((i + 2 : ℕ) : ℚ)⌋.toNat))

/-- shuffleArray of src/utils/imageUtils.ts (Fisher-Yates on a copy of the
input array; in this functional embedding the copy step is implicit). -/
def shuffleArray {α : Type} (rand : ℕ → ℚ) (array : List α) : List α :=
  shuffleLoop rand (array.length - 1) array

/-- The CellMapping record of src/types.ts. -/
structure CellMapping where
  currentPos : ℕ
  originalPos : ℕ
deriving DecidableEq, Repr

/-- initializeMapping of the App component: the identity mapping of length
size * size. -/
def initializeMapping (size : ℕ) : List CellMapping :=
  (List.range (size * size)).map (fun i => { currentPos := i, originalPos := i })

/-- handleShuffle of the App component: extracts the originalPos column,
shuffles it, and writes it back entrywise. -/
def handleShuffle (rand : ℕ → ℚ) (mapping : List CellMapping) : List CellMapping :=
  let originalPositions := mapping.map (·.originalPos)
  let shuffled := shuffleArray rand originalPositions
  mapping.mapIdx (fun i m => { m with originalPos := shuffled.getD i 0 })

/-- handleSwap of the App component: exchanges the originalPos values at
idxA and idxB.  The source indexes the array directly; the callers only pass
in-range indices, and the fallback branch leaves the mapping unchanged. -/
def handleSwap (mapping : List CellMapping) (idxA idxB : ℕ) : List CellMapping :=
  match mapping.get? idxA, mapping.get? idxB with
  | some mA, some mB =>
      (mapping.set idxA { mA with originalPos := mB.originalPos }).set idxB
        { mB with originalPos := mA.originalPos }
  | _, _ => mapping

/-- The operations that modify the mapping after initialization: the
Shuffle All button (handleShuffle, with its stream of random draws) and a
drag-and-drop swap (handleSwap). -/
inductive MapOp where
  | shuffle (rand : ℕ → ℚ)
  | swap (idxA idxB : ℕ)

/-- Application of one mapping operation. -/
def applyOp (mapping : List CellMapping) : MapOp → List CellMapping
  | .shuffle rand => handleShuffle rand mapping
  | .swap a b => handleSwap mapping a b

/-- A swap operation exchanges the originalPos values of two positions, so
its indices lie below the mapping length n; shuffles are unrestricted. -/
def OpValid (n : ℕ) : MapOp → Prop
  | .shuffle _ => True
  | .swap a b => a < n ∧ b < n

/-- The reactive state of the BingoBoard component: the dragged cell index,
the hovered cell index and the drag position.  capturedId records the pointer
captured by setPointerCapture in handlePointerDown. -/
structure BoardState where
  draggedIdx : Option ℕ
  hoverIdx : Option ℕ
  dragPos : Pt ℚ
  capturedId : Option ℕ
deriving DecidableEq, Repr

/-- The scan loop shared by the BingoBoard pointer handlers: the first index
i < size * size whose cell rectangle contains the position. -/
def findCell (rect : Rect ℚ) (size : ℕ) (pos : Pt ℚ) : Option ℕ :=
  (List.range (size * size)).find? (fun i => isPointInRect pos.x pos.y (getCellRect rect size i))

/-- handlePointerDown of BingoBoard: begin a drag on the first cell containing
the position, record the drag position and capture the pointer. -/
def boardPointerDown (rect : Rect ℚ) (size : ℕ) (s : BoardState) (pid : ℕ) (pos : Pt ℚ) :
    BoardState :=
  match findCell rect size pos with
  | some i => { s with draggedIdx := some i, dragPos := pos, capturedId := some pid }
  | none => s

/-- handlePointerMove of BingoBoard: ignored when no drag is active; otherwise
updates the drag position and recomputes the hover target.  The source never
inspects the pointer identifier of the event. -/
def boardPointerMove (rect : Rect ℚ) (size : ℕ) (s : BoardState) (_pid : ℕ) (pos : Pt ℚ) :
    BoardState :=
  if s.draggedIdx = none then s
  else { s with dragPos := pos, hoverIdx := findCell rect size pos }

/-- handlePointerUp of BingoBoard: swap when a hover target exists and differs
from the dragged index, then clear the drag and hover state (pointer capture
is released by the platform on pointer up). -/
def boardPointerUp (s : BoardState) (mapping : List CellMapping) :
    BoardState × List CellMapping :=
  let mapping' :=
    match s.draggedIdx, s.hoverIdx with
    | some a, some b => if a ≠ b then handleSwap mapping a b else mapping
    | _, _ => mapping
  ({ s with draggedIdx := none, hoverIdx := none, capturedId := none }, mapping')

/-- Consing a list element onto the list with that position overwritten is a
permutation of consing the new value onto the original list. -/
lemma cons_set_perm {α : Type} :
    ∀ (xs : List α) (j : ℕ) (b x : α), xs.get? j = some b →
      (b :: xs.set j x).Perm (x :: xs)
  | [], j, b, x, h => by simp at h
  | y :: ys, 0, b, x, h => by
      simp only [List.get?] at h
      cases h
      simpa using List.Perm.swap x y ys
  | y :: ys, j + 1, b, x, h => by
      simp only [List.get?] at h
      have h1 : (b :: y :: ys.set j x).Perm (y :: b :: ys.set j x) := List.Perm.swap y b _
      have h2 : (y :: b :: ys.set j x).Perm (y :: x :: ys) := (cons_set_perm ys j b x h).cons y
      have h3 : (y :: x :: ys).Perm (x :: y :: ys) := List.Perm.swap x y ys
      exact (h1.trans h2).trans h3

/-- Writing the value at position j to position i and the value at position i
to position j permutes the list. -/
lemma set_set_swap_perm {α : Type} :
    ∀ (l : List α) (i j : ℕ) (a b : α), l.get? i = some a → l.get? j = some b →
      ((l.set i b).set j a).Perm l
  | [], i, j, a, b, hi, hj => by simp at hi
  | x :: xs, 0, 0, a, b, hi, hj => by
      simp only [List.get?] at hi hj
      cases hi; cases hj
      simp
  | x :: xs, 0, j + 1, a, b, hi, hj => by
      simp only [List.get?] at hi hj
      cases hi
      exact cons_set_perm xs j b x hj
  | x :: xs, i + 1, 0, a, b, hi, hj => by
      simp only [List.get?] at hi hj
      cases hj
      exact cons_set_perm xs i a x hi
  | x :: xs, i + 1, j + 1, a, b, hi, hj => by
      simp only [List.get?] at hi hj
      exact (set_set_swap_perm xs i j a b hi hj).cons x

/-- listSwap always permutes its input. -/
lemma listSwap_perm {α : Type} (l : List α) (i j : ℕ) : (listSwap l i j).Perm l := by
  unfold listSwap
  cases hi : l.get? i with
  | none => exact List.Perm.refl l
  | some a =>
      cases hj : l.get? j with
      | none => exact List.Perm.refl l
      | some b => exact set_set_swap_perm l i j a b hi hj

/-- Every iteration count of the Fisher-Yates loop produces a permutation. -/
lemma shuffleLoop_perm {α : Type} (rand : ℕ → ℚ) :
    ∀ (n : ℕ) (arr : List α), (shuffleLoop rand n arr).Perm arr
  | 0, arr => List.Perm.refl arr
  | n + 1, arr =>
      (shuffleLoop_perm rand n _).trans (listSwap_perm arr (n + 1) _)

/-- C7: for every stream of random draws and every input sequence,
shuffleArray returns a permutation of the input (same length and same
multiset of elements); the input itself is untouched, as the source copies
the array before its in-place loop and this embedding is functional. -/
theorem shuffleArray_is_perm {α : Type} (rand : ℕ → ℚ) (array : List α) :
    (shuffleArray rand array).Perm array :=
  shuffleLoop_perm rand (array.length - 1) array

/-- C9: isPointInRect returns true exactly when the point lies inside the
rectangle with all four boundary lines included. -/
theorem isPointInRect_iff (px py : ℚ) (rect : Rect ℚ) :
    isPointInRect px py rect = true ↔
      rect.x ≤ px ∧ px ≤ rect.x + rect.width ∧ rect.y ≤ py ∧ py ≤ rect.y + rect.height := by
  simp [isPointInRect, ge_iff_le, and_assoc]

/-- The originalPos column of handleShuffle is exactly the shuffled column. -/
lemma map_originalPos_handleShuffle (rand : ℕ → ℚ) (mapping : List CellMapping) :
    (handleShuffle rand mapping).map (·.originalPos) =
      shuffleArray rand (mapping.map (·.originalPos)) := by
  have hlen : (shuffleArray rand (mapping.map (·.originalPos))).length = mapping.length := by
    simpa using (shuffleArray_is_perm rand (mapping.map (·.originalPos))).length_eq
  apply List.ext_getElem
  · simp [handleShuffle, hlen]
  · intro n h1 h2
    simp only [handleShuffle, List.getElem_map, List.getElem_mapIdx]
    rw [List.getD_eq_getElem]

/-- The originalPos column of handleSwap permutes the original column. -/
lemma map_originalPos_handleSwap_perm (mapping : List CellMapping) (a b : ℕ) :
    ((handleSwap mapping a b).map (·.originalPos)).Perm (mapping.map (·.originalPos)) := by
  unfold handleSwap
  cases hA : mapping.get? a with
  | none => exact List.Perm.refl _
  | some mA =>
      cases hB : mapping.get? b with
      | none => exact List.Perm.refl _
      | some mB =>
          simp only [List.map_set]
          apply set_set_swap_perm
          · rw [List.get?_map, hA]; rfl
          · rw [List.get?_map, hB]; rfl

/-- Any sequence of mapping operations keeps the originalPos column a
permutation of the range. -/
lemma foldl_applyOp_perm (k : ℕ) :
    ∀ (ops : List MapOp) (mapping : List CellMapping),
      ((mapping.map (·.originalPos)).Perm (List.range k)) →
      (((ops.foldl applyOp mapping).map (·.originalPos)).Perm (List.range k))
  | [], _, h => h
  | op :: ops, mapping, h => by
      apply foldl_applyOp_perm k ops
      cases op with
      | shuffle rand =>
          show ((handleShuffle rand mapping).map (·.originalPos)).Perm (List.range k)
          rw [map_originalPos_handleShuffle]
          exact (shuffleArray_is_perm _ _).trans h
      | swap a b =>
          exact (map_originalPos_handleSwap_perm mapping a b).trans h

/-- C1: for every grid size in {3, 4, 5} and every mapping state reachable
from the identity mapping by shuffle-all operations and swaps of two
positions, the originalPos values form a permutation of the range
[0, size * size): every value appears exactly once. -/
theorem mapping_originalPos_perm (size : ℕ) (hsize : size = 3 ∨ size = 4 ∨ size = 5)
    (ops : List MapOp) (hops : ∀ op ∈ ops, OpValid (size * size) op) :
    ((ops.foldl applyOp (initializeMapping size)).map (·.originalPos)).Perm
      (List.range (size * size)) := by
  apply foldl_applyOp_perm
  have h : (initializeMapping size).map (·.originalPos) = List.range (size * size) := by
    simp only [initializeMapping, List.map_map]
    exact List.map_id _
  rw [h]

/-- C1 witness: a swap of positions 0 and 8 followed by a shuffle-all, on the
3 by 3 board, keeps the originalPos column a permutation of [0, 9). -/
theorem mapping_originalPos_perm_witness :
    ((([MapOp.swap 0 8, MapOp.shuffle (fun _ => 0)]).foldl applyOp
        (initializeMapping 3)).map (·.originalPos)).Perm (List.range (3 * 3)) := by
  apply mapping_originalPos_perm 3 (Or.inl rfl)
  intro op hop
  simp only [List.mem_cons, List.not_mem_nil, or_false] at hop
  rcases hop with h | h <;> subst h
  · exact ⟨by norm_num, by norm_num⟩
  · trivial

/-- find? over a range returns the least index satisfying the predicate. -/
lemma find?_range_eq_some (p : ℕ → Bool) :
    ∀ (i n : ℕ), i < n → p i = true → (∀ j, j < i → p j = false) →
      (List.range n).find? p = some i
  | i, 0, hi, _, _ => absurd hi (Nat.not_lt_zero i)
  | 0, n + 1, _, hp, _ => by
      rw [List.range_succ_eq_map, List.find?_cons, hp]
  | i + 1, n + 1, hi, hp, hmin => by
      have h0 : p 0 = false := hmin 0 (Nat.succ_pos i)
      rw [List.range_succ_eq_map, List.find?_cons, h0, List.find?_map]
      have ih : (List.range n).find? (p ∘ Nat.succ) = some i :=
        find?_range_eq_some (p ∘ Nat.succ) i n (Nat.lt_of_succ_lt_succ hi) hp
          (fun j hj => hmin (j + 1) (Nat.succ_lt_succ hj))
      rw [ih]
      rfl

/-- C10: both the drag-begin handler and the hover detection of the Cell
Board scan the cells in ascending index order and select the first cell whose
rectangle contains the position, so on shared boundaries the smallest index
wins. -/
theorem board_first_cell_selected (rect : Rect ℚ) (size : ℕ) (pos : Pt ℚ) (s : BoardState)
    (pid : ℕ) (d i : ℕ) (hd : s.draggedIdx = some d) (hi : i < size * size)
    (hin : isPointInRect pos.x pos.y (getCellRect rect size i) = true)
    (hmin : ∀ j, j < i → isPointInRect pos.x pos.y (getCellRect rect size j) = false) :
    findCell rect size pos = some i ∧
    (boardPointerDown rect size s pid pos).draggedIdx = some i ∧
    (boardPointerMove rect size s pid pos).hoverIdx = some i := by
  have hfind : findCell rect size pos = some i :=
    find?_range_eq_some _ i (size * size) hi hin hmin
  refine ⟨hfind, ?_, ?_⟩
  · unfold boardPointerDown
    rw [hfind]
  · simp [boardPointerMove, hd, hfind]

/-- C10 witness: the point (30, 0) lies on the shared boundary of cells 0 and
1 of a 3 by 3 grid on the region (0, 0, 90, 90); both handlers select cell 0. -/
theorem board_first_cell_selected_witness :
    findCell ⟨0, 0, 90, 90⟩ 3 ⟨30, 0⟩ = some 0 ∧
    (boardPointerDown ⟨0, 0, 90, 90⟩ 3 ⟨some 5, none, ⟨0, 0⟩, some 1⟩ 1 ⟨30, 0⟩).draggedIdx =
      some 0 ∧
    (boardPointerMove ⟨0, 0, 90, 90⟩ 3 ⟨some 5, none, ⟨0, 0⟩, some 1⟩ 1 ⟨30, 0⟩).hoverIdx =
      some 0 :=
  board_first_cell_selected ⟨0, 0, 90, 90⟩ 3 ⟨30, 0⟩ ⟨some 5, none, ⟨0, 0⟩, some 1⟩ 1 5 0 rfl
    (by norm_num) (by simp only [isPointInRect, getCellRect]; norm_num)
    (fun j hj => absurd hj (Nat.not_lt_zero j))

/-- C6: on pointer up during a drag, the mapping changes only when a hover
target exists and differs from the dragged index, in which case exactly those
two entries trade originalPos values and all other entries are unchanged;
drag and hover state are cleared in every case. -/
theorem board_pointer_up_spec (s : BoardState) (mapping : List CellMapping) :
    (boardPointerUp s mapping).1.draggedIdx = none ∧
    (boardPointerUp s mapping).1.hoverIdx = none ∧
    (s.draggedIdx = none → (boardPointerUp s mapping).2 = mapping) ∧
    (s.hoverIdx = none → (boardPointerUp s mapping).2 = mapping) ∧
    (∀ a, s.draggedIdx = some a → s.hoverIdx = some a →
      (boardPointerUp s mapping).2 = mapping) ∧
    (∀ a b mA mB, s.draggedIdx = some a → s.hoverIdx = some b → a ≠ b →
      mapping.get? a = some mA → mapping.get? b = some mB →
      (boardPointerUp s mapping).2.get? a = some { mA with originalPos := mB.originalPos } ∧
      (boardPointerUp s mapping).2.get? b = some { mB with originalPos := mA.originalPos } ∧
      ∀ k, k ≠ a → k ≠ b → (boardPointerUp s mapping).2.get? k = mapping.get? k) := by
  refine ⟨rfl, rfl, ?_, ?_, ?_, ?_⟩
  · intro h
    simp [boardPointerUp, h]
  · intro h
    cases hd : s.draggedIdx <;> simp [boardPointerUp, h, hd]
  · intro a h1 h2
    simp [boardPointerUp, h1, h2]
  · intro a b mA mB h1 h2 hne hA hB
    have ha : a < mapping.length := by
      rcases List.getElem?_eq_some.mp ((List.get?_eq_getElem? mapping a) ▸ hA) with ⟨h, _⟩
      exact h
    have hb : b < mapping.length := by
      rcases List.getElem?_eq_some.mp ((List.get?_eq_getElem? mapping b) ▸ hB) with ⟨h, _⟩
      exact h
    have hmap : (boardPointerUp s mapping).2 =
        (mapping.set a { mA with originalPos := mB.originalPos }).set b
          { mB with originalPos := mA.originalPos } := by
      simp only [boardPointerUp, h1, h2, if_pos hne]
      unfold handleSwap
      rw [hA, hB]
    rw [hmap]
    refine ⟨?_, ?_, ?_⟩
    · rw [List.get?_eq_getElem?, List.getElem?_set_ne (Ne.symm hne),
        List.getElem?_set_self ha]
    · rw [List.get?_eq_getElem?,
        List.getElem?_set_self (by rw [List.length_set]; exact hb)]
    · intro k hka hkb
      rw [List.get?_eq_getElem?, List.getElem?_set_ne (Ne.symm hkb),
        List.getElem?_set_ne (Ne.symm hka), List.get?_eq_getElem?]

/-- C6 witness: dragging cell 0 and dropping on hovered cell 2 in a
three-entry mapping swaps exactly the originalPos values of entries 0 and 2,
leaves entry 1 unchanged, and clears the drag and hover state. -/
theorem board_pointer_up_spec_witness :
    (boardPointerUp ⟨some 0, some 2, ⟨0, 0⟩, some 1⟩ [⟨0, 0⟩, ⟨1, 1⟩, ⟨2, 2⟩]).2.get? 0 =
      some ⟨0, 2⟩ ∧
    (boardPointerUp ⟨some 0, some 2, ⟨0, 0⟩, some 1⟩ [⟨0, 0⟩, ⟨1, 1⟩, ⟨2, 2⟩]).2.get? 2 =
      some ⟨2, 0⟩ ∧
    (boardPointerUp ⟨some 0, some 2, ⟨0, 0⟩, some 1⟩ [⟨0, 0⟩, ⟨1, 1⟩, ⟨2, 2⟩]).2.get? 1 =
      some ⟨1, 1⟩ ∧
    (boardPointerUp ⟨some 0, some 2, ⟨0, 0⟩, some 1⟩ [⟨0, 0⟩, ⟨1, 1⟩, ⟨2, 2⟩]).1.draggedIdx =
      none := by
  have h := board_pointer_up_spec ⟨some 0, some 2, ⟨0, 0⟩, some 1⟩ [⟨0, 0⟩, ⟨1, 1⟩, ⟨2, 2⟩]
  have hs := h.2.2.2.2.2 0 2 ⟨0, 0⟩ ⟨2, 2⟩ rfl rfl (by decide) rfl rfl
  exact ⟨hs.1, hs.2.1, hs.2.2 1 (by decide) (by decide), h.1⟩

/-- The closed point set of a rectangle, the inclusive containment region. -/
def rectPts (r : Rect ℚ) : Set (ℚ × ℚ) :=
  {p | r.x ≤ p.1 ∧ p.1 ≤ r.x + r.width ∧ r.y ≤ p.2 ∧ p.2 ≤ r.y + r.height}

/-- The open interior of a rectangle. -/
def rectInterior (r : Rect ℚ) : Set (ℚ × ℚ) :=
  {p | r.x < p.1 ∧ p.1 < r.x + r.width ∧ r.y < p.2 ∧ p.2 < r.y + r.height}

/-- One-dimensional cover: any coordinate inside the interval [X, X + W] lies
in one of the s subintervals of width W / s. -/
lemma cell_cover_1D (X W : ℚ) (s : ℕ) (hW : 0 < W) (hs : 0 < s) (t : ℚ)
    (h1 : X ≤ t) (h2 : t ≤ X + W) :
    ∃ c : ℕ, c < s ∧ X + c * (W / s) ≤ t ∧ t ≤ X + c * (W / s) + W / s := by
  obtain ⟨m, rfl⟩ : ∃ m, s = m + 1 := ⟨s - 1, (Nat.succ_pred_eq_of_pos hs).symm⟩
  have hsq : (0:ℚ) < ((m + 1 : ℕ) : ℚ) := by exact_mod_cast hs
  set cw := W / ((m + 1 : ℕ) : ℚ) with hcw
  have hcw0 : 0 < cw := div_pos hW hsq
  have hWs : ((m + 1 : ℕ) : ℚ) * cw = W := by
    rw [hcw]; field_simp
  set u := (t - X) / cw with hu
  have hu0 : 0 ≤ u := div_nonneg (by linarith) hcw0.le
  have humul : u * cw = t - X := by
    rw [hu]; exact div_mul_cancel₀ _ hcw0.ne'
  have hus : u ≤ ((m + 1 : ℕ) : ℚ) := by
    rw [hu, div_le_iff hcw0]
    linarith [hWs]
  have hfnn : 0 ≤ ⌊u⌋ := Int.floor_nonneg.mpr hu0
  have hcast : ((⌊u⌋.toNat : ℕ) : ℚ) = ((⌊u⌋ : ℤ) : ℚ) := by
    exact_mod_cast congrArg (Int.cast : ℤ → ℚ) (Int.toNat_of_nonneg hfnn)
  have hle : ((⌊u⌋.toNat : ℕ) : ℚ) ≤ u := by
    rw [hcast]; exact Int.floor_le u
  have hlt : u < ((⌊u⌋.toNat : ℕ) : ℚ) + 1 := by
    rw [hcast]; exact Int.lt_floor_add_one u
  by_cases hcase : ⌊u⌋.toNat < m + 1
  · refine ⟨⌊u⌋.toNat, hcase, ?_, ?_⟩
    · have h3 : ((⌊u⌋.toNat : ℕ) : ℚ) * cw ≤ u * cw :=
        mul_le_mul_of_nonneg_right hle hcw0.le
      linarith [humul]
    · have h3 : u * cw < (((⌊u⌋.toNat : ℕ) : ℚ) + 1) * cw :=
        mul_lt_mul_of_pos_right hlt hcw0
    
      nlinarith [humul]
  · have hge : ((m + 1 : ℕ) : ℚ) ≤ u := by
      have : (m + 1 : ℕ) ≤ ⌊u⌋.toNat := Nat.le_of_not_lt hcase
      calc ((m + 1 : ℕ) : ℚ) ≤ ((⌊u⌋.toNat : ℕ) : ℚ) := by exact_mod_cast this
        _ ≤ u := hle
    have huw : u = ((m + 1 : ℕ) : ℚ) := le_antisymm hus hge
    have ht : t = X + W := by
      have : u * cw = W := by rw [huw, hWs]
      linarith [humul, this]
    refine ⟨m, Nat.lt_succ_self m, ?_, ?_⟩
    · have hmc : ((m : ℕ) : ℚ) * cw + cw = W := by
        have : ((m : ℕ) : ℚ) + 1 = ((m + 1 : ℕ) : ℚ) := by push_cast; ring
        nlinarith [hWs, this]
      linarith [ht, hmc, hcw0]
    · have hmc : ((m : ℕ) : ℚ) * cw + cw = W := by
        have : ((m : ℕ) : ℚ) + 1 = ((m + 1 : ℕ) : ℚ) := by push_cast; ring
        nlinarith [hWs, this]
      linarith [ht, hmc]

/-- Every cell rectangle is contained in the region. -/
lemma cell_subset_region (region : Rect ℚ) (size : ℕ) (hs : 0 < size)
    (hw : 0 < region.width) (hh : 0 < region.height) (i : ℕ) (hi : i < size * size) :
    rectPts (getCellRect region size i) ⊆ rectPts region := by
  intro p hp
  obtain ⟨h1, h2, h3, h4⟩ := hp
  simp only [getCellRect] at h1 h2 h3 h4
  have hsq : (0:ℚ) < (size:ℚ) := by exact_mod_cast hs
  have hcw : 0 ≤ region.width / size := le_of_lt (div_pos hw hsq)
  have hch : 0 ≤ region.height / size := le_of_lt (div_pos hh hsq)
  have hWs : (size:ℚ) * (region.width / size) = region.width := by field_simp
  have hHs : (size:ℚ) * (region.height / size) = region.height := by field_simp
  have hcol : ((i % size : ℕ) : ℚ) + 1 ≤ (size : ℚ) := by
    exact_mod_cast Nat.mod_lt i hs
  have hrow : ((i / size : ℕ) : ℚ) + 1 ≤ (size : ℚ) := by
    exact_mod_cast (Nat.div_lt_iff_lt_mul hs).mpr hi
  have hcnn : (0:ℚ) ≤ ((i % size : ℕ) : ℚ) := Nat.cast_nonneg _
  have hrnn : (0:ℚ) ≤ ((i / size : ℕ) : ℚ) := Nat.cast_nonneg _
  refine ⟨?_, ?_, ?_, ?_⟩
  · nlinarith [mul_nonneg hcnn hcw]
  · nlinarith [mul_le_mul_of_nonneg_right hcol hcw]
  · nlinarith [mul_nonneg hrnn hch]
  · nlinarith [mul_le_mul_of_nonneg_right hrow hch]

/-- Every point of the region lies in some cell rectangle. -/
lemma region_subset_union (region : Rect ℚ) (size : ℕ) (hs : 0 < size)
    (hw : 0 < region.width) (hh : 0 < region.height) (p : ℚ × ℚ)
    (hp : p ∈ rectPts region) :
    ∃ i, i < size * size ∧ p ∈ rectPts (getCellRect region size i) := by
  obtain ⟨h1, h2, h3, h4⟩ := hp
  obtain ⟨c, hc, hcl, hcu⟩ := cell_cover_1D region.x region.width size hw hs p.1 h1 h2
  obtain ⟨r, hr, hrl, hru⟩ := cell_cover_1D region.y region.height size hh hs p.2 h3 h4
  refine ⟨c + r * size, ?_, ?_⟩
  · calc c + r * size < size + r * size := by omega
      _ = (r + 1) * size := by ring
      _ ≤ size * size := Nat.mul_le_mul_right size (by omega)
  · have hcol : (c + r * size) % size = c := by
      rw [Nat.add_mul_mod_self_right]
      exact Nat.mod_eq_of_lt hc
    have hrow : (c + r * size) / size = r := by
      rw [Nat.add_mul_div_right _ _ hs, Nat.div_eq_of_lt hc, Nat.zero_add]
    refine ⟨?_, ?_, ?_, ?_⟩ <;> simp only [getCellRect, hcol, hrow] <;> linarith

/-- One-dimensional separation: a coordinate cannot lie strictly inside two
distinct subintervals. -/
lemma cell_disjoint_1D (X W : ℚ) (s : ℕ) (hW : 0 < W) (hs : 0 < s) (c d : ℕ) (hcd : c < d)
    (t : ℚ) (hc : t < X + c * (W / s) + W / s) (hd : X + d * (W / s) < t) : False := by
  have hsq : (0:ℚ) < (s:ℚ) := by exact_mod_cast hs
  have hcw : 0 < W / s := div_pos hW hsq
  have h1 : ((c:ℚ) + 1) ≤ (d:ℚ) := by exact_mod_cast hcd
  nlinarith [mul_le_mul_of_nonneg_right h1 hcw.le]

/-- Distinct cell rectangles have disjoint interiors. -/
lemma cell_interiors_disjoint (region : Rect ℚ) (size : ℕ) (hs : 0 < size)
    (hw : 0 < region.width) (hh : 0 < region.height) (i j : ℕ)
    (hne : i ≠ j) :
    rectInterior (getCellRect region size i) ∩ rectInterior (getCellRect region size j) = ∅ := by
  apply Set.eq_empty_iff_forall_not_mem.mpr
  intro p hp
  obtain ⟨hpi, hpj⟩ := hp
  obtain ⟨a1, a2, a3, a4⟩ := hpi
  obtain ⟨b1, b2, b3, b4⟩ := hpj
  simp only [getCellRect] at a1 a2 a3 a4 b1 b2 b3 b4
  have hij : i % size ≠ j % size ∨ i / size ≠ j / size := by
    by_contra h
    push_neg at h
    obtain ⟨h1, h2⟩ := h
    have hdi := Nat.div_add_mod i size
    have hdj := Nat.div_add_mod j size
    rw [h1, h2] at hdi
    omega
  rcases hij with h | h
  · rcases Nat.lt_or_ge (i % size) (j % size) with hlt | hge
    · exact cell_disjoint_1D region.x region.width size hw hs _ _ hlt p.1 a2 b1
    · exact cell_disjoint_1D region.x region.width size hw hs _ _
        (Nat.lt_of_le_of_ne hge (Ne.symm h)) p.1 b2 a1
  · rcases Nat.lt_or_ge (i / size) (j / size) with hlt | hge
    · exact cell_disjoint_1D region.y region.height size hh hs _ _ hlt p.2 a4 b3
    · exact cell_disjoint_1D region.y region.height size hh hs _ _
        (Nat.lt_of_le_of_ne hge (Ne.symm h)) p.2 b4 a3

/-- C2: for the grid sizes 3, 4 and 5 and any region of positive width and
height, each of the size * size cell rectangles has width region.width / size
and height region.height / size, is placed row-major, and together they tile
the region exactly: their union is the region and distinct cells have
disjoint interiors. -/
theorem cell_rects_tile_region (region : Rect ℚ) (size : ℕ)
    (hw : 0 < region.width) (hh : 0 < region.height)
    (hsize : size = 3 ∨ size = 4 ∨ size = 5) :
    (∀ i, i < size * size →
      (getCellRect region size i).width = region.width / size ∧
      (getCellRect region size i).height = region.height / size ∧
      (getCellRect region size i).x =
        region.x + ((i % size : ℕ) : ℚ) * (region.width / size) ∧
      (getCellRect region size i).y =
        region.y + ((i / size : ℕ) : ℚ) * (region.height / size)) ∧
    (⋃ i ∈ Finset.range (size * size), rectPts (getCellRect region size i)) =
      rectPts region ∧
    (∀ i j, i < size * size → j < size * size → i ≠ j →
      rectInterior (getCellRect region size i) ∩
        rectInterior (getCellRect region size j) = ∅) := by
  have hs : 0 < size := by rcases hsize with h | h | h <;> omega
  refine ⟨fun i _ => ⟨rfl, rfl, rfl, rfl⟩, ?_, ?_⟩
  · apply Set.ext
    intro p
    simp only [Set.mem_iUnion, Finset.mem_range, exists_prop]
    constructor
    · rintro ⟨i, hi, hp⟩
      exact cell_subset_region region size hs hw hh i hi hp
    · intro hp
      exact region_subset_union region size hs hw hh p hp
  · intro i j _ _ hne
    exact cell_interiors_disjoint region size hs hw hh i j hne

/-- C2 witness: the nine cells of a 3 by 3 grid tile the region
(0, 0, 90, 90) exactly. -/
theorem cell_rects_tile_region_witness :
    (⋃ i ∈ Finset.range (3 * 3), rectPts (getCellRect ⟨0, 0, 90, 90⟩ 3 i)) =
      rectPts ⟨0, 0, 90, 90⟩ :=
  (cell_rects_tile_region ⟨0, 0, 90, 90⟩ 3 (by norm_num) (by norm_num)
    (Or.inl rfl)).2.1

/-- The gesture modes of the GridEditor component (dragMode values). -/
inductive DragMode where
  | move
  | resizeBR
  | pinch
deriving DecidableEq, Repr

/-- The reactive state of the GridEditor component. -/
structure EditorState where
  isDragging : Bool
  dragMode : Option DragMode
  startPos : Pt ℝ
  activePointers : List (ℕ × Pt ℝ)
  initialPinchDist : Option ℝ
  initialRectSize : Option (ℝ × ℝ)

/-- JS Map set: replace in place when the key exists, else append (insertion
order preserved, matching Map iteration order). -/
def mapSet {β : Type} (m : List (ℕ × β)) (k : ℕ) (v : β) : List (ℕ × β) :=
  if m.any (fun kv => decide (kv.1 = k)) then
    m.map (fun kv => if kv.1 = k then (k, v) else kv)
  else m ++ [(k, v)]

/-- JS Map has. -/
def mapHas {β : Type} (m : List (ℕ × β)) (k : ℕ) : Bool :=
  m.any (fun kv => decide (kv.1 = k))

/-- JS Map delete. -/
def mapDelete {β : Type} (m : List (ℕ × β)) (k : ℕ) : List (ℕ × β) :=
  m.filter (fun kv => decide (kv.1 ≠ k))

/-- JS Map values in iteration order. -/
def mapValues {β : Type} (m : List (ℕ × β)) : List β :=
  m.map Prod.snd

/-- getDistance of GridEditor: Euclidean distance between two positions. -/
noncomputable def getDistance (p1 p2 : Pt ℝ) : ℝ :=
  Real.sqrt ((p2.x - p1.x) ^ 2 + (p2.y - p1.y) ^ 2)

/-- handlePointerDown of GridEditor.  With one active contact after insertion
the handler enters resize mode near the bottom-right handle, move mode inside
the rectangle, and otherwise ignores the contact (it is still recorded in the
pointer map, the early return skips only the gesture setup); with exactly two
active contacts it enters pinch mode and records the pinch baselines. -/
noncomputable def handlePointerDownE (s : EditorState) (rect : Rect ℝ) (pid : ℕ)
    (pos : Pt ℝ) : EditorState :=
  let newPointers := mapSet s.activePointers pid pos
  if newPointers.length = 1 then
    if |pos.x - (rect.x + rect.width)| < 30 ∧ |pos.y - (rect.y + rect.height)| < 30 then
      { s with activePointers := newPointers, dragMode := some DragMode.resizeBR,
               startPos := pos, isDragging := true }
    else if pos.x ≥ rect.x ∧ pos.x ≤ rect.x + rect.width ∧ pos.y ≥ rect.y ∧
        pos.y ≤ rect.y + rect.height then
      { s with activePointers := newPointers, dragMode := some DragMode.move,
               startPos := pos, isDragging := true }
    else
      { s with activePointers := newPointers }
  else if newPointers.length = 2 then
    let s1 := { s with activePointers := newPointers, dragMode := some DragMode.pinch }
    match mapValues newPointers with
    | p1 :: p2 :: _ =>
        { s1 with initialPinchDist := some (getDistance p1 p2),
                  initialRectSize := some (rect.width, rect.height), isDragging := true }
    | _ => s1
  else
    { s with activePointers := newPointers }

/-- handlePointerMove of GridEditor: ignores untracked contacts, records the
new position, and while dragging emits the moved, resized or pinch-scaled
rectangle (the second component models the onRectChange callback).  The pinch
branch requires truthy baselines, so a zero initial distance emits nothing. -/
noncomputable def handlePointerMoveE (s : EditorState) (rect : Rect ℝ) (pid : ℕ)
    (pos : Pt ℝ) : EditorState × Option (Rect ℝ) :=
  if mapHas s.activePointers pid = false then (s, none)
  else
    let newPointers := mapSet s.activePointers pid pos
    let s1 := { s with activePointers := newPointers }
    if s.isDragging = false then (s1, none)
    else if s.dragMode = some DragMode.move ∧ newPointers.length = 1 then
      let dx := pos.x - s.startPos.x
      let dy := pos.y - s.startPos.y
      ({ s1 with startPos := pos },
        some { rect with x := rect.x + dx, y := rect.y + dy })
    else if s.dragMode = some DragMode.resizeBR ∧ newPointers.length = 1 then
      let dx := pos.x - s.startPos.x
      let dy := pos.y - s.startPos.y
      ({ s1 with startPos := pos },
        some { rect with width := max 40 (rect.width + dx),
                         height := max 40 (rect.height + dy) })
    else if s.dragMode = some DragMode.pinch ∧ newPointers.length = 2 then
      match s.initialPinchDist, s.initialRectSize with
      | some d0, some sz =>
          if d0 = 0 then (s1, none)
          else
            match mapValues newPointers with
            | p1 :: p2 :: _ =>
                let currentDist := getDistance p1 p2
                let scale := currentDist / d0
                let newWidth := max 40 (sz.1 * scale)
                let newHeight := max 40 (sz.2 * scale)
                let centerX := rect.x + rect.width / 2
                let centerY := rect.y + rect.height / 2
                (s1, some { x := centerX - newWidth / 2, y := centerY - newHeight / 2,
                            width := newWidth, height := newHeight })
            | _ => (s1, none)
      | _, _ => (s1, none)
    else (s1, none)

/-- handlePointerUp of GridEditor (also used for pointer cancel): remove the
contact; with zero contacts left clear everything, with one left only leave
the gesture mode. -/
def handlePointerUpE (s : EditorState) (pid : ℕ) : EditorState :=
  let newPointers := mapDelete s.activePointers pid
  if newPointers.length = 0 then
    { s with activePointers := newPointers, isDragging := false, dragMode := none,
             initialPinchDist := none, initialRectSize := none }
  else if newPointers.length = 1 then
    { s with activePointers := newPointers, dragMode := none }
  else
    { s with activePointers := newPointers }

/-- An emitted rectangle, when present, respects the 40 pixel minimum. -/
def rectMinOK : Option (Rect ℝ) → Prop
  | none => True
  | some r => 40 ≤ r.width ∧ 40 ≤ r.height

/-- C3: whenever a contact-move is processed in resize or pinch mode, any
rectangle it emits has width and height at least 40, for arbitrary positional
deltas and pinch scale factors. -/
theorem editor_min_size_clamp (s : EditorState) (rect : Rect ℝ) (pid : ℕ) (pos : Pt ℝ)
    (hw : 40 ≤ rect.width) (hh : 40 ≤ rect.height)
    (hmode : s.dragMode = some DragMode.resizeBR ∨ s.dragMode = some DragMode.pinch) :
    rectMinOK (handlePointerMoveE s rect pid pos).2 := by
  unfold handlePointerMoveE
  dsimp only
  split_ifs with hA hB hC hD hE <;> try trivial
  all_goals first
    | exact ⟨le_max_left _ _, le_max_left _ _⟩
    | (split
       · split_ifs with hz
         · trivial
         · split
           · exact ⟨le_max_left _ _, le_max_left _ _⟩
           · trivial
       · trivial)

/-- C3 witness: a resize drag pulled far up-left from a 100 by 100 rectangle
still emits a rectangle respecting the 40 pixel minimum. -/
theorem editor_min_size_clamp_witness :
    rectMinOK (handlePointerMoveE
      ⟨true, some DragMode.resizeBR, ⟨0, 0⟩, [(1, ⟨0, 0⟩)], none, none⟩
      ⟨0, 0, 100, 100⟩ 1 ⟨-1000, -1000⟩).2 :=
  editor_min_size_clamp ⟨true, some DragMode.resizeBR, ⟨0, 0⟩, [(1, ⟨0, 0⟩)], none, none⟩
    ⟨0, 0, 100, 100⟩ 1 ⟨-1000, -1000⟩ (by norm_num) (by norm_num) (Or.inl rfl)

/-- C4: a contact-move in pinch mode with exactly two active contacts emits
the rectangle with width max(40, baselineWidth * scale) and height
max(40, baselineHeight * scale), where scale is the ratio of the current
inter-contact distance to the pinch baseline distance, and the emitted
rectangle keeps the midpoint of the previous rectangle. -/
theorem editor_pinch_update (s : EditorState) (rect : Rect ℝ) (pid : ℕ) (pos : Pt ℝ)
    (d0 w0 h0 : ℝ) (p1 p2 : Pt ℝ)
    (hmode : s.dragMode = some DragMode.pinch)
    (hdrag : s.isDragging = true)
    (htracked : mapHas s.activePointers pid = true)
    (hd : s.initialPinchDist = some d0) (hd0 : d0 ≠ 0)
    (hsz : s.initialRectSize = some (w0, h0))
    (hpts : mapValues (mapSet s.activePointers pid pos) = [p1, p2]) :
    (handlePointerMoveE s rect pid pos).2 =
      some { x := rect.x + rect.width / 2 - max 40 (w0 * (getDistance p1 p2 / d0)) / 2,
             y := rect.y + rect.height / 2 - max 40 (h0 * (getDistance p1 p2 / d0)) / 2,
             width := max 40 (w0 * (getDistance p1 p2 / d0)),
             height := max 40 (h0 * (getDistance p1 p2 / d0)) } ∧
    ∀ r, (handlePointerMoveE s rect pid pos).2 = some r →
      r.x + r.width / 2 = rect.x + rect.width / 2 ∧
      r.y + r.height / 2 = rect.y + rect.height / 2 := by
  have hlen : (mapSet s.activePointers pid pos).length = 2 := by
    have h := congrArg List.length hpts
    simpa [mapValues] using h
  have hmain : (handlePointerMoveE s rect pid pos).2 =
      some { x := rect.x + rect.width / 2 - max 40 (w0 * (getDistance p1 p2 / d0)) / 2,
             y := rect.y + rect.height / 2 - max 40 (h0 * (getDistance p1 p2 / d0)) / 2,
             width := max 40 (w0 * (getDistance p1 p2 / d0)),
             height := max 40 (h0 * (getDistance p1 p2 / d0)) } := by
    unfold handlePointerMoveE
    dsimp only
    rw [htracked, hdrag, hmode, hd, hsz, hlen, hpts]
    simp [hd0]
  refine ⟨hmain, ?_⟩
  intro r hr
  rw [hmain] at hr
  cases hr
  constructor <;> ring

/-- C4 witness: with baseline rectangle (0, 0, 100, 100), baseline distance
50 and current contacts at distance 100 (scale factor 2), the emitted
rectangle is exactly (-50, -50, 200, 200). -/
theorem editor_pinch_update_witness :
    (handlePointerMoveE
      ⟨true, some DragMode.pinch, ⟨0, 0⟩, [(1, ⟨0, 0⟩), (2, ⟨30, 40⟩)], some 50, some (100, 100)⟩
      ⟨0, 0, 100, 100⟩ 2 ⟨60, 80⟩).2 = some ⟨-50, -50, 200, 200⟩ := by
  have h := (editor_pinch_update
    ⟨true, some DragMode.pinch, ⟨0, 0⟩, [(1, ⟨0, 0⟩), (2, ⟨30, 40⟩)], some 50, some (100, 100)⟩
    ⟨0, 0, 100, 100⟩ 2 ⟨60, 80⟩ 50 100 100 ⟨0, 0⟩ ⟨60, 80⟩ rfl rfl rfl rfl (by norm_num) rfl
    (by simp [mapSet, mapValues])).1
  have hdist : getDistance ⟨0, 0⟩ ⟨60, 80⟩ = 100 := by
    simp only [getDistance]
    rw [show ((⟨60, 80⟩ : Pt ℝ).x - (⟨0, 0⟩ : Pt ℝ).x) ^ 2 +
      ((⟨60, 80⟩ : Pt ℝ).y - (⟨0, 0⟩ : Pt ℝ).y) ^ 2 = 100 ^ 2 by norm_num]
    exact Real.sqrt_sq (by norm_num)
  rw [h, hdist]
  have hm : max (40:ℝ) (100 * (100 / 50)) = 200 := by
    rw [max_eq_right] <;> norm_num
  rw [hm]
  simp only [Option.some.injEq, Rect.mk.injEq]
  norm_num

/-- C5: on a contact-begin with no prior active contacts, the editor enters
resize mode within 30 pixels on both axes of the bottom-right corner, enters
move mode when the position is inside the rectangle inclusively, and
otherwise starts no gesture and leaves the mode none. -/
theorem editor_pointer_down_modes (s : EditorState) (rect : Rect ℝ) (pid : ℕ) (pos : Pt ℝ)
    (hempty : s.activePointers = []) (hmode : s.dragMode = none) :
    ((|pos.x - (rect.x + rect.width)| < 30 ∧ |pos.y - (rect.y + rect.height)| < 30) →
      (handlePointerDownE s rect pid pos).dragMode = some DragMode.resizeBR ∧
      (handlePointerDownE s rect pid pos).isDragging = true) ∧
    (¬(|pos.x - (rect.x + rect.width)| < 30 ∧ |pos.y - (rect.y + rect.height)| < 30) →
      (rect.x ≤ pos.x ∧ pos.x ≤ rect.x + rect.width ∧ rect.y ≤ pos.y ∧
        pos.y ≤ rect.y + rect.height) →
      (handlePointerDownE s rect pid pos).dragMode = some DragMode.move ∧
      (handlePointerDownE s rect pid pos).isDragging = true) ∧
    (¬(|pos.x - (rect.x + rect.width)| < 30 ∧ |pos.y - (rect.y + rect.height)| < 30) →
      ¬(rect.x ≤ pos.x ∧ pos.x ≤ rect.x + rect.width ∧ rect.y ≤ pos.y ∧
        pos.y ≤ rect.y + rect.height) →
      (handlePointerDownE s rect pid pos).dragMode = none ∧
      (handlePointerDownE s rect pid pos).isDragging = s.isDragging) := by
  have hlen : (mapSet s.activePointers pid pos).length = 1 := by
    rw [hempty]; rfl
  refine ⟨?_, ?_, ?_⟩
  · intro hnear
    unfold handlePointerDownE
    dsimp only
    rw [hlen]
    simp [hnear]
  · intro hnear hin
    unfold handlePointerDownE
    dsimp only
    rw [hlen]
    simp [hnear, hin, ge_iff_le]
  · intro hnear hin
    unfold handlePointerDownE
    dsimp only
    rw [hlen]
    simp [hnear, hin, hmode, ge_iff_le]

/-- C5 witness: on a fresh editor over the rectangle (0, 0, 100, 100), a
press at (95, 95) enters resize mode, and a press at (500, 500) leaves the
gesture mode none. -/
theorem editor_pointer_down_modes_witness :
    (handlePointerDownE ⟨false, none, ⟨0, 0⟩, [], none, none⟩
      ⟨0, 0, 100, 100⟩ 1 ⟨95, 95⟩).dragMode = some DragMode.resizeBR ∧
    (handlePointerDownE ⟨false, none, ⟨0, 0⟩, [], none, none⟩
      ⟨0, 0, 100, 100⟩ 1 ⟨500, 500⟩).dragMode = none :=
  ⟨((editor_pointer_down_modes ⟨false, none, ⟨0, 0⟩, [], none, none⟩ ⟨0, 0, 100, 100⟩ 1
      ⟨95, 95⟩ rfl rfl).1
      (by constructor <;> (rw [abs_sub_lt_iff]; constructor <;> norm_num))).1,
   ((editor_pointer_down_modes ⟨false, none, ⟨0, 0⟩, [], none, none⟩ ⟨0, 0, 100, 100⟩ 1
      ⟨500, 500⟩ rfl rfl).2.2
      (by intro hcon; rcases hcon with ⟨h, _⟩; rw [abs_sub_lt_iff] at h; norm_num at h)
      (by intro hcon; rcases hcon with ⟨_, h, _⟩; norm_num at h)).1⟩

/-- C8 (amended): a contact-move for an untracked contact identifier leaves
the Grid-Region Editor completely unchanged and emits nothing; the Cell Board
ignores every contact-move while no drag is active, but during an active drag
it does not inspect the contact identifier, so an untracked contact can move
the drag state (see the counterexample). -/
theorem untracked_move_ignored :
    (∀ (s : EditorState) (rect : Rect ℝ) (pid : ℕ) (pos : Pt ℝ),
      mapHas s.activePointers pid = false →
      handlePointerMoveE s rect pid pos = (s, none)) ∧
    (∀ (rect : Rect ℚ) (size : ℕ) (s : BoardState) (pid : ℕ) (pos : Pt ℚ),
      s.draggedIdx = none → boardPointerMove rect size s pid pos = s) := by
  constructor
  · intro s rect pid pos h
    unfold handlePointerMoveE
    rw [h]
    simp
  · intro rect size s pid pos h
    unfold boardPointerMove
    rw [h]
    simp

/-- C8 counterexample: with a drag of cell 0 active that was begun and
captured by contact 1, a move of the untracked contact 2 changes the Cell
Board state: the drag position jumps to the new position. -/
theorem untracked_move_ignored_counterexample :
    (⟨some 0, none, ⟨0, 0⟩, some 1⟩ : BoardState).capturedId ≠ some 2 ∧
    (boardPointerMove ⟨0, 0, 90, 90⟩ 3 ⟨some 0, none, ⟨0, 0⟩, some 1⟩ 2 ⟨5, 5⟩).dragPos ≠
      (⟨some 0, none, ⟨0, 0⟩, some 1⟩ : BoardState).dragPos := by
  constructor
  · simp
  · simp only [boardPointerMove, reduceCtorEq, if_false]
    intro hcon
    have := congrArg Pt.x hcon
    norm_num at this

/-- C8 witness: a move of the unknown contact 7 is ignored by a fresh editor
and by a board with no active drag. -/
theorem untracked_move_ignored_witness :
    handlePointerMoveE ⟨false, none, ⟨0, 0⟩, [], none, none⟩ ⟨0, 0, 100, 100⟩ 7 ⟨1, 2⟩ =
      (⟨false, none, ⟨0, 0⟩, [], none, none⟩, none) ∧
    boardPointerMove ⟨0, 0, 90, 90⟩ 3 ⟨none, none, ⟨0, 0⟩, none⟩ 7 ⟨1, 2⟩ =
      ⟨none, none, ⟨0, 0⟩, none⟩ :=
  ⟨untracked_move_ignored.1 ⟨false, none, ⟨0, 0⟩, [], none, none⟩ ⟨0, 0, 100, 100⟩ 7 ⟨1, 2⟩ rfl,
   untracked_move_ignored.2 ⟨0, 0, 90, 90⟩ 3 ⟨none, none, ⟨0, 0⟩, none⟩ 7 ⟨1, 2⟩ rfl⟩
